import Mathlib

set_option maxRecDepth 100000
set_option autoImplicit false

/-!
Shallow embedding of the rhythm-visual-fusion audio/video pipeline.

The definitions below are translated from the TypeScript sources
`src/lib/audioProcessor.ts`, `src/lib/mlAudioProcessor.ts` and
`src/lib/videoEffects.ts`.  JavaScript numbers are modelled as rationals
(the concrete inputs in all theorems stay well inside the range where IEEE
doubles behave exactly like rationals), byte buffers as lists of naturals,
and platform primitives (`Math.random`, `Math.pow`, the canvas blur
filter) as explicit function parameters.
-/

/-- The 8-field feature vector produced once per analysis tick
(`AudioFeatures` in `audioProcessor.ts`). -/
structure AudioFeatures where
  kick : ℚ
  snare : ℚ
  hihat : ℚ
  bass : ℚ
  mids : ℚ
  treble : ℚ
  energy : ℚ
  rhythm : ℚ
deriving DecidableEq, Repr

/-- The all-zero feature vector (the `defaultFeatures` literal). -/
def zeroFeatures : AudioFeatures := ⟨0, 0, 0, 0, 0, 0, 0, 0⟩

/-- `Math.min(Math.max(v, 0), 1)`. -/
def clamp01 (q : ℚ) : ℚ := min (max q 0) 1

namespace AudioProcessor

/-- Sum of `frequencyData[i]` for `i = lowBin .. highBin` (inclusive), the
loop of `getAverageForBand` (`audioProcessor.ts` lines 177-179).  The bytes
are naturals, so the float accumulation of the source is exact and we sum
in `ℕ`.  Out-of-range JS reads would be `undefined`; every theorem below
keeps the reads in range, where `getD _ 0` agrees with the source. -/
def sumBins (data : List ℕ) (lo hi : ℤ) : ℕ :=
  ((List.range (hi + 1 - lo).toNat).map
    (fun (k : ℕ) => data.getD (lo + (k : ℤ)).toNat 0)).sum

/-- `AudioProcessor.getAverageForBand` (`audioProcessor.ts` lines 165-183):
maps `[minFreq, maxFreq]` to bins via `Math.floor(freq / nyquist * binCount)`,
sums the inclusive bin range and normalizes by `(highBin - lowBin) * 255`. -/
def getAverageForBand (data : List ℕ) (sampleRate minFreq maxFreq : ℚ) : ℚ :=
  if data.length = 0 then 0
  else
    let nyquist := sampleRate / 2
    let lowBin : ℤ := ⌊minFreq / nyquist * data.length⌋
    let highBin : ℤ := ⌊maxFreq / nyquist * data.length⌋
    let binCount : ℤ := highBin - lowBin
    if binCount ≤ 0 then 0
    else (sumBins data lowBin highBin : ℚ) / (binCount * 255)

/-- `AudioProcessor.calculateEnergy` (lines 185-194): mean byte amplitude
over the whole spectrum, normalized by 255. -/
def calculateEnergy (data : List ℕ) : ℚ :=
  if data.length = 0 then 0
  else (data.sum : ℚ) / (data.length * 255)

/-- `AudioProcessor.detectBeats` (lines 196-203): `kick * 0.7 + snare * 0.3`
over the kick and snare band energies. -/
def detectBeats (data : List ℕ) (sampleRate : ℚ) : ℚ :=
  getAverageForBand data sampleRate 40 120 * (7/10) +
    getAverageForBand data sampleRate 120 250 * (3/10)

/-- `AudioProcessor.getAudioFeatures` (lines 139-163).  The source checks
only `!this.analyser`; the playback flag is not consulted.  The frequency
snapshot and sample rate stand for `this.frequencyData` and
`this.audioContext.sampleRate`. -/
def getAudioFeatures (hasAnalyser : Bool) (data : List ℕ) (sampleRate : ℚ) :
    AudioFeatures :=
  if !hasAnalyser then zeroFeatures
  else
    { kick := getAverageForBand data sampleRate 40 120
      snare := getAverageForBand data sampleRate 120 250
      hihat := getAverageForBand data sampleRate 8000 16000
      bass := getAverageForBand data sampleRate 60 250
      mids := getAverageForBand data sampleRate 250 2000
      treble := getAverageForBand data sampleRate 2000 16000
      energy := calculateEnergy data
      rhythm := detectBeats data sampleRate }

/-- The state of an `AudioProcessor` instance as far as `getAudioFeatures`
is concerned: the analyser, the playback flag (maintained by
`play`/`pause`/`stop` but never consulted by `getAudioFeatures`), the
current frequency snapshot and the context sample rate. -/
structure State where
  hasAnalyser : Bool
  isPlaying : Bool
  frequencyData : List ℕ
  sampleRate : ℚ

/-- `getAudioFeatures` on a full instance state; the source reads only the
analyser and the frequency snapshot, not `this.isPlaying`. -/
def getAudioFeaturesS (st : State) : AudioFeatures :=
  getAudioFeatures st.hasAnalyser st.frequencyData st.sampleRate

end AudioProcessor

/-- The spec-side band mean ("sum divided by the number of bins summed"):
mean of the per-bin normalized amplitude `byte / 255` over the inclusive
bin range.  Written from the spec sentence, to be compared with
`AudioProcessor.getAverageForBand`. -/
def specBandMean (data : List ℕ) (sampleRate minFreq maxFreq : ℚ) : ℚ :=
  let nyquist := sampleRate / 2
  let lowBin : ℤ := ⌊minFreq / nyquist * data.length⌋
  let highBin : ℤ := ⌊maxFreq / nyquist * data.length⌋
  let n : ℤ := highBin + 1 - lowBin
  (((List.range n.toNat).map
    (fun (k : ℕ) => (data.getD (lowBin + (k : ℤ)).toNat 0 : ℚ) / 255)).sum) / n

/-- All 8 fields lie in the closed interval `[lo, hi]`. -/
def featuresIn (f : AudioFeatures) (lo hi : ℚ) : Prop :=
  (lo ≤ f.kick ∧ f.kick ≤ hi) ∧ (lo ≤ f.snare ∧ f.snare ≤ hi) ∧
  (lo ≤ f.hihat ∧ f.hihat ≤ hi) ∧ (lo ≤ f.bass ∧ f.bass ≤ hi) ∧
  (lo ≤ f.mids ∧ f.mids ≤ hi) ∧ (lo ≤ f.treble ∧ f.treble ≤ hi) ∧
  (lo ≤ f.energy ∧ f.energy ≤ hi) ∧ (lo ≤ f.rhythm ∧ f.rhythm ≤ hi)

/-- **C1, counterexample.**  On the frequency frame with 8 bins all at byte
255 and sample rate 44100, the hihat band (8000-16000 Hz) maps to
`lowBin = 2`, `highBin = 5`, so `binCount = 3` while 4 bins are summed:
the returned hihat value is `4 * 255 / (3 * 255) = 4/3 ∉ [0,1]`, so not
every field of the returned `FeatureVector` lies in `[0,1]`. -/
lemma frame8_hihat_eval :
    (AudioProcessor.getAudioFeatures true (List.replicate 8 255) 44100).hihat
      = 4/3 := by
  simp only [AudioProcessor.getAudioFeatures, AudioProcessor.getAverageForBand,
    Bool.not_true, Bool.false_eq_true, if_false]
  norm_num
  have h3 : AudioProcessor.sumBins (List.replicate 8 255) 2 5 = 1020 := by
    decide
  norm_num [h3]

theorem getAudioFeatures_unit_interval_counterexample :
    (AudioProcessor.getAudioFeatures true (List.replicate 8 255) 44100).hihat
        = 4/3 ∧
    ¬ featuresIn
      (AudioProcessor.getAudioFeatures true (List.replicate 8 255) 44100)
      0 1 := by
  have hh := frame8_hihat_eval
  refine ⟨hh, fun hmem => ?_⟩
  have := hmem.2.2.1.2
  rw [hh] at this
  norm_num at this

/-- A byte read from a byte list is at most 255. -/
lemma getD_le_255 {data : List ℕ} (h : ∀ b ∈ data, b ≤ 255) (i : ℕ) :
    data.getD i 0 ≤ 255 := by
  by_cases hi : i < data.length
  · rw [List.getD_eq_getElem _ _ hi]
    exact h _ (List.getElem_mem hi)
  · rw [List.getD_eq_default _ _ (Nat.le_of_not_lt hi)]
    exact Nat.zero_le _

/-- The inclusive loop sums `(hi + 1 - lo)` bytes, each at most 255. -/
lemma sumBins_le {data : List ℕ} (h : ∀ b ∈ data, b ≤ 255) (lo hi : ℤ) :
    AudioProcessor.sumBins data lo hi ≤ (hi + 1 - lo).toNat * 255 := by
  unfold AudioProcessor.sumBins
  calc ((List.range (hi + 1 - lo).toNat).map
        (fun (k : ℕ) => data.getD (lo + (k : ℤ)).toNat 0)).sum
      ≤ ((List.range (hi + 1 - lo).toNat).map
        (fun (k : ℕ) => data.getD (lo + (k : ℤ)).toNat 0)).length • 255 := by
        refine List.sum_le_card_nsmul _ _ ?_
        intro x hx
        obtain ⟨k, _, rfl⟩ := List.mem_map.mp hx
        exact getD_le_255 h _
    _ = (hi + 1 - lo).toNat * 255 := by
        rw [List.length_map, List.length_range, smul_eq_mul]

/-- Each band mean returned by `AudioProcessor.getAverageForBand` lies in
`[0, 2]`: the loop sums `binCount + 1` bytes but normalizes by
`binCount * 255`, so the value can reach `(binCount + 1)/binCount ≤ 2`. -/
lemma getAverageForBand_bounds {data : List ℕ} (h : ∀ b ∈ data, b ≤ 255)
    (sampleRate minFreq maxFreq : ℚ) :
    0 ≤ AudioProcessor.getAverageForBand data sampleRate minFreq maxFreq ∧
      AudioProcessor.getAverageForBand data sampleRate minFreq maxFreq ≤ 2 := by
  unfold AudioProcessor.getAverageForBand
  by_cases h0 : data.length = 0
  · simp [h0]
  · simp only [h0, if_false]
    set lo : ℤ := ⌊minFreq / (sampleRate / 2) * data.length⌋ with hlo
    set hi : ℤ := ⌊maxFreq / (sampleRate / 2) * data.length⌋ with hhi
    by_cases hbc : hi - lo ≤ 0
    · simp [hbc]
    · simp only [hbc, if_false]
      push_neg at hbc
      have hr : (1 : ℤ) ≤ hi - lo := hbc
      have hrq : (1 : ℚ) ≤ ((hi : ℚ) - lo) := by exact_mod_cast hr
      have hden : (0 : ℚ) < ((hi : ℚ) - lo) * 255 := by nlinarith [hrq]
      have hsum : (AudioProcessor.sumBins data lo hi : ℚ)
          ≤ ((hi : ℚ) - lo + 1) * 255 := by
        have h1q : (AudioProcessor.sumBins data lo hi : ℚ)
            ≤ ((hi + 1 - lo).toNat : ℚ) * 255 := by
          exact_mod_cast sumBins_le h lo hi
        have h2 : ((hi + 1 - lo).toNat : ℚ) = (hi : ℚ) - lo + 1 := by
          have h2a : ((hi + 1 - lo).toNat : ℤ) = hi + 1 - lo :=
            Int.toNat_of_nonneg (by omega)
          calc ((hi + 1 - lo).toNat : ℚ)
              = (((hi + 1 - lo).toNat : ℤ) : ℚ) := by push_cast; ring
            _ = ((hi + 1 - lo : ℤ) : ℚ) := by rw [h2a]
            _ = (hi : ℚ) - lo + 1 := by push_cast; ring
        rw [h2] at h1q
        exact h1q
      constructor
      · apply div_nonneg (by positivity)
        push_cast
        nlinarith [hrq]
      · rw [div_le_iff₀ (by push_cast; exact hden)]
        push_cast
        nlinarith [hsum, hrq]

/-- The overall spectrum energy lies in `[0, 1]`. -/
lemma calculateEnergy_bounds {data : List ℕ} (h : ∀ b ∈ data, b ≤ 255) :
    0 ≤ AudioProcessor.calculateEnergy data ∧
      AudioProcessor.calculateEnergy data ≤ 1 := by
  unfold AudioProcessor.calculateEnergy
  by_cases h0 : data.length = 0
  · simp [h0]
  · simp only [h0, if_false]
    have hlen : (0 : ℚ) < (data.length : ℚ) * 255 := by
      have : 0 < data.length := Nat.pos_of_ne_zero h0
      positivity
    constructor
    · apply div_nonneg _ (le_of_lt hlen)
      positivity
    · rw [div_le_one hlen]
      have : data.sum ≤ data.length * 255 := by
        calc data.sum ≤ data.length • 255 := List.sum_le_card_nsmul _ _ h
          _ = data.length * 255 := by rw [smul_eq_mul]
      calc (data.sum : ℚ) ≤ (data.length * 255 : ℕ) := by exact_mod_cast this
        _ = (data.length : ℚ) * 255 := by push_cast; ring

/-- **C1, amended.**  For the byte-based `AudioProcessor`, with a sample
rate above 32 kHz (so every band's bin range stays inside the spectrum and
no JS out-of-range read occurs) and byte amplitudes, every field of the
returned `FeatureVector` lies in `[0, 2]` — not `[0, 1]`: because the loop
of `getAverageForBand` sums the inclusive bin range but divides by
`highBin - lowBin`, a band mean can reach `(binCount + 1)/binCount ≤ 2`,
and the bound 2 is attained (see the counterexample). -/
theorem getAudioFeatures_fields_in_zero_two (hasAnalyser : Bool)
    (data : List ℕ) (sampleRate : ℚ) (_hS : 32000 < sampleRate)
    (hbytes : ∀ b ∈ data, b ≤ 255) :
    featuresIn (AudioProcessor.getAudioFeatures hasAnalyser data sampleRate)
      0 2 := by
  cases hasAnalyser with
  | false =>
    simp [AudioProcessor.getAudioFeatures, zeroFeatures, featuresIn]
  | true =>
    simp only [AudioProcessor.getAudioFeatures, Bool.not_true,
      Bool.false_eq_true, if_false]
    have hb := fun f1 f2 => getAverageForBand_bounds hbytes sampleRate f1 f2
    have he := calculateEnergy_bounds hbytes
    have hk := hb 40 120
    have hs := hb 120 250
    have hr : 0 ≤ AudioProcessor.detectBeats data sampleRate ∧
        AudioProcessor.detectBeats data sampleRate ≤ 2 := by
      unfold AudioProcessor.detectBeats
      constructor
      · have := hk.1; have := hs.1; nlinarith [hk.1, hs.1]
      · nlinarith [hk.2, hs.2, hk.1, hs.1]
    refine ⟨⟨hk.1, hk.2⟩, ⟨hs.1, hs.2⟩, ⟨(hb 8000 16000).1, (hb 8000 16000).2⟩,
      ⟨(hb 60 250).1, (hb 60 250).2⟩, ⟨(hb 250 2000).1, (hb 250 2000).2⟩,
      ⟨(hb 2000 16000).1, (hb 2000 16000).2⟩, ⟨he.1, le_trans he.2 (by norm_num)⟩,
      ⟨hr.1, hr.2⟩⟩

/-- Witness for `getAudioFeatures_fields_in_zero_two` at a concrete frame. -/
theorem getAudioFeatures_fields_in_zero_two_witness :
    featuresIn
      (AudioProcessor.getAudioFeatures true (List.replicate 8 255) 44100)
      0 2 :=
  getAudioFeatures_fields_in_zero_two true (List.replicate 8 255) 44100
    (by norm_num) (by decide)

/-- Pulling the common `/ 255` normalization out of a list sum. -/
lemma map_div255_sum (l : List ℕ) (g : ℕ → ℕ) :
    (l.map (fun (k : ℕ) => (g k : ℚ) / 255)).sum = ((l.map g).sum : ℚ) / 255 := by
  induction l with
  | nil => simp
  | cons a t ih =>
    rw [List.map_cons, List.sum_cons, List.map_cons, List.sum_cons, ih]
    push_cast
    ring

/-- **C2, amended.**  For a non-degenerate band (`lowBin < highBin`),
`AudioProcessor.getAverageForBand` returns the sum of the per-bin
normalized amplitudes `byte / 255` over the inclusive bin range
`[lowBin, highBin]` divided by `highBin - lowBin` — i.e. by one *less*
than the number of bins summed, not by the number of bins summed. -/
theorem getAverageForBand_eq_inclusive_sum_div_binCount
    (data : List ℕ) (sampleRate minFreq maxFreq : ℚ)
    (hne : ¬ data.length = 0)
    (hlt : ⌊minFreq / (sampleRate / 2) * data.length⌋
         < ⌊maxFreq / (sampleRate / 2) * data.length⌋) :
    AudioProcessor.getAverageForBand data sampleRate minFreq maxFreq
      = ((List.range ((⌊maxFreq / (sampleRate / 2) * data.length⌋ + 1
            - ⌊minFreq / (sampleRate / 2) * data.length⌋)).toNat).map
          (fun (k : ℕ) =>
            (data.getD ((⌊minFreq / (sampleRate / 2) * data.length⌋
                + (k : ℤ))).toNat 0 : ℚ) / 255)).sum
        / ((⌊maxFreq / (sampleRate / 2) * data.length⌋ : ℚ)
            - (⌊minFreq / (sampleRate / 2) * data.length⌋ : ℚ)) := by
  unfold AudioProcessor.getAverageForBand AudioProcessor.sumBins
  simp only [hne, if_false]
  set lo : ℤ := ⌊minFreq / (sampleRate / 2) * data.length⌋ with hlo
  set hi : ℤ := ⌊maxFreq / (sampleRate / 2) * data.length⌋ with hhi
  have hbc : ¬ (hi - lo ≤ 0) := by omega
  simp only [hbc, if_false]
  rw [map_div255_sum (List.range (hi + 1 - lo).toNat)
    (fun (k : ℕ) => data.getD (lo + (k : ℤ)).toNat 0)]
  rw [div_div]
  push_cast
  ring_nf

/-- The concrete all-255 frame with 8 bins used by several witnesses. -/
def frame8 : List ℕ := List.replicate 8 255

/-- Witness for `getAverageForBand_eq_inclusive_sum_div_binCount` on the
all-255 frame of 8 bins, at the hihat band. -/
theorem getAverageForBand_eq_inclusive_sum_div_binCount_witness :
    AudioProcessor.getAverageForBand frame8 44100 8000 16000
      = ((List.range ((⌊(16000 : ℚ) / (44100 / 2) * frame8.length⌋ + 1
            - ⌊(8000 : ℚ) / (44100 / 2) * frame8.length⌋)).toNat).map
          (fun (k : ℕ) =>
            (frame8.getD ((⌊(8000 : ℚ) / (44100 / 2) * frame8.length⌋
                + (k : ℤ))).toNat 0 : ℚ) / 255)).sum
        / ((⌊(16000 : ℚ) / (44100 / 2) * frame8.length⌋ : ℚ)
            - (⌊(8000 : ℚ) / (44100 / 2) * frame8.length⌋ : ℚ)) :=
  getAverageForBand_eq_inclusive_sum_div_binCount frame8
    44100 8000 16000 (by decide) (by norm_num [frame8])

/-- **C2, counterexample.**  At the hihat band of the all-255 frame with 8
bins and sample rate 44100 the code returns `4/3` while the arithmetic mean
of the normalized amplitudes over the inclusive bin range (4 bins, each
normalized to 1) is `1`: the band energy is not the sum divided by the
number of bins summed. -/
theorem getAverageForBand_not_specBandMean_counterexample :
    AudioProcessor.getAverageForBand frame8 44100 8000 16000 = 4/3 ∧
    specBandMean frame8 44100 8000 16000 = 1 ∧
    AudioProcessor.getAverageForBand frame8 44100 8000 16000
      ≠ specBandMean frame8 44100 8000 16000 := by
  have hcode : AudioProcessor.getAverageForBand frame8 44100 8000 16000
      = 4/3 := by
    simp only [AudioProcessor.getAverageForBand, frame8]
    norm_num
    have h3 : AudioProcessor.sumBins (List.replicate 8 255) 2 5 = 1020 := by
      decide
    norm_num [h3]
  have hspec : specBandMean frame8 44100 8000 16000 = 1 := by
    simp only [specBandMean, frame8]
    norm_num
    simp [List.range_succ]
    norm_num [List.getD]
  refine ⟨hcode, hspec, ?_⟩
  rw [hcode, hspec]
  norm_num

namespace VideoEffects

/-- The effect type enumeration of `videoEffects.ts` line 1. -/
inductive EffectType where
  | none
  | noise
  | displacement
  | timeMachine
  | pixelate
  | rgb
  | blur
  | shake
deriving DecidableEq, Repr, Fintype

/-- One entry of `config.mappings` (`videoEffects.ts` lines 97-102). -/
structure Mapping where
  audioFeature : String
  effectType : EffectType
  intensity : ℚ
  enabled : Bool
deriving DecidableEq, Repr

/-- `this.effectOrder` (`videoEffects.ts` line 419). -/
def effectOrder : List EffectType :=
  [.displacement, .timeMachine, .pixelate, .rgb, .blur, .shake, .noise]

/-- `this.effectOrder.indexOf t`: position in the precedence list, `-1`
when absent (JS `indexOf` semantics; only `'none'` is absent). -/
def effectIdx (t : EffectType) : ℤ :=
  if t ∈ effectOrder then (effectOrder.indexOf t : ℤ) else -1

/-- The comparator `(a, b) => orderA - orderB` of the render loop
(`videoEffects.ts` lines 517-521) sorts ascending by `effectIdx`. -/
def mappingLE (a b : Mapping) : Prop :=
  effectIdx a.effectType ≤ effectIdx b.effectType

instance : DecidableRel mappingLE := fun a b =>
  inferInstanceAs (Decidable (effectIdx a.effectType ≤ effectIdx b.effectType))

instance : IsTotal Mapping mappingLE := ⟨fun _ _ => Int.le_total _ _⟩

instance : IsTrans Mapping mappingLE :=
  ⟨fun _ _ _ h1 h2 => Int.le_trans h1 h2⟩

/-- `config.mappings.filter(m => m.enabled && m.effectType !== 'none')`
(`videoEffects.ts` line 514). -/
def enabledMappings (ms : List Mapping) : List Mapping :=
  ms.filter (fun m => m.enabled && !(m.effectType == EffectType.none))

/-- `[...enabledMappings].sort((a, b) => orderA - orderB)`
(`videoEffects.ts` lines 517-521).  `Array.prototype.sort` is a stable
comparison sort (ES2019); `List.insertionSort` is stable, so it computes
the same list. -/
def sortMappings (ms : List Mapping) : List Mapping :=
  ms.insertionSort mappingLE

/-- The sequence of effect types the render loop applies, in order: the
loop of `startProcessing` (lines 529-547) walks `sortedMappings` front to
back, each effect consuming the previous output. -/
def appliedOrder (ms : List Mapping) : List EffectType :=
  (sortMappings (enabledMappings ms)).map (fun m => m.effectType)

end VideoEffects

/-- `effectIdx` separates the effect types: distinct types get distinct
positions (`'none'` gets `-1`, the seven others their positions 0..6). -/
lemma effectIdx_inj : ∀ s t : VideoEffects.EffectType,
    VideoEffects.effectIdx s = VideoEffects.effectIdx t → s = t := by
  decide

/-- On mapping lists whose effect types are distinct, the sorted list is
strictly increasing in `effectIdx`. -/
lemma sortMappings_pairwise_lt (l : List VideoEffects.Mapping)
    (hnd : (l.map (fun m => VideoEffects.effectIdx m.effectType)).Nodup) :
    (VideoEffects.sortMappings l).Pairwise
      (fun a b => VideoEffects.effectIdx a.effectType
        < VideoEffects.effectIdx b.effectType) := by
  have hsorted : (VideoEffects.sortMappings l).Pairwise VideoEffects.mappingLE :=
    List.sorted_insertionSort _ l
  have hperm : (VideoEffects.sortMappings l).Perm l :=
    List.perm_insertionSort _ l
  have hndmap : ((VideoEffects.sortMappings l).map
      (fun m => VideoEffects.effectIdx m.effectType)).Nodup :=
    ((hperm.map _).nodup_iff).mpr hnd
  have hpairne : (VideoEffects.sortMappings l).Pairwise
      (fun a b => VideoEffects.effectIdx a.effectType
        ≠ VideoEffects.effectIdx b.effectType) :=
    List.pairwise_map.mp hndmap
  exact (hsorted.and hpairne).imp
    (fun hab => lt_of_le_of_ne hab.1 hab.2)

/-- **C3.**  The render loop of `startProcessing` walks the sorted enabled
mappings front to back, so the effects are applied exactly in the order of
`sortMappings (enabledMappings ms)`.  That list (i) contains exactly the
enabled mappings and (ii) is ordered by the fixed effect-type precedence
`displacement, timeMachine, pixelate, rgb, blur, shake, noise`; and (iii)
whenever two mapping lists hold the same enabled mappings in any order and
no effect type is mapped twice, the render loop applies the identical
effect sequence — the order of the mapping list is irrelevant. -/
theorem render_loop_fixed_effect_precedence
    (ms₁ ms₂ : List VideoEffects.Mapping) :
    (VideoEffects.sortMappings (VideoEffects.enabledMappings ms₁)).Perm
        (VideoEffects.enabledMappings ms₁)
    ∧ (VideoEffects.sortMappings (VideoEffects.enabledMappings ms₁)).Pairwise
        VideoEffects.mappingLE
    ∧ ((VideoEffects.enabledMappings ms₁).Perm (VideoEffects.enabledMappings ms₂) →
        ((VideoEffects.enabledMappings ms₁).map (fun m => m.effectType)).Nodup →
        VideoEffects.sortMappings (VideoEffects.enabledMappings ms₁)
          = VideoEffects.sortMappings (VideoEffects.enabledMappings ms₂)) := by
  refine ⟨List.perm_insertionSort _ _, List.sorted_insertionSort _ _, ?_⟩
  intro hperm hnodup
  have hinj : Function.Injective VideoEffects.effectIdx :=
    fun s t h => effectIdx_inj s t h
  have hnd1 : ((VideoEffects.enabledMappings ms₁).map
      (fun m => VideoEffects.effectIdx m.effectType)).Nodup := by
    have h1 : (((VideoEffects.enabledMappings ms₁).map
        (fun m => m.effectType)).map VideoEffects.effectIdx).Nodup :=
      hnodup.map hinj
    rwa [List.map_map] at h1
  have hnd2 : ((VideoEffects.enabledMappings ms₂).map
      (fun m => VideoEffects.effectIdx m.effectType)).Nodup :=
    ((hperm.map _).nodup_iff).mp hnd1
  haveI : IsAntisymm VideoEffects.Mapping
      (fun a b => VideoEffects.effectIdx a.effectType
        < VideoEffects.effectIdx b.effectType) :=
    ⟨fun _ _ h1 h2 => absurd (lt_trans h1 h2) (lt_irrefl _)⟩
  exact List.eq_of_perm_of_sorted
    ((List.perm_insertionSort _ _).trans
      (hperm.trans (List.perm_insertionSort _ _).symm))
    (sortMappings_pairwise_lt _ hnd1) (sortMappings_pairwise_lt _ hnd2)

/-- Witness for `render_loop_fixed_effect_precedence`: the three default
enabled mappings listed in two different orders sort to the same chain. -/
theorem render_loop_fixed_effect_precedence_witness :
    VideoEffects.sortMappings (VideoEffects.enabledMappings
      [⟨"kick", .shake, 10, true⟩, ⟨"rhythm", .timeMachine, 20, true⟩,
       ⟨"bass", .displacement, 30, true⟩])
    = VideoEffects.sortMappings (VideoEffects.enabledMappings
      [⟨"bass", .displacement, 30, true⟩, ⟨"rhythm", .timeMachine, 20, true⟩,
       ⟨"kick", .shake, 10, true⟩]) :=
  (render_loop_fixed_effect_precedence _ _).2.2 (by decide) (by decide)

namespace VideoEffects

/-- `this.maxHistoryLength` (`videoEffects.ts` line 416). -/
def maxHistoryLength : ℕ := 30

/-- One history push of the render loop (`videoEffects.ts` lines 498-501):
`unshift` the new frame, then `pop` the oldest when the capacity is
exceeded. -/
def pushFrame {α : Type} (f : α) (h : List α) : List α :=
  let h2 := f :: h
  if h2.length > maxHistoryLength then h2.dropLast else h2

/-- A sequence of pushes, oldest first (one per rendered frame). -/
def pushFrames {α : Type} (fs : List α) (h : List α) : List α :=
  fs.foldl (fun acc f => pushFrame f acc) h

end VideoEffects

/-- Below capacity a push keeps everything; at capacity it keeps the 30
newest frames. -/
lemma pushFrame_eq_take {α : Type} (f : α) (h : List α)
    (hh : h.length ≤ VideoEffects.maxHistoryLength) :
    VideoEffects.pushFrame f h
      = (f :: h).take VideoEffects.maxHistoryLength := by
  unfold VideoEffects.pushFrame
  by_cases hlen : (f :: h).length > VideoEffects.maxHistoryLength
  · simp only [hlen, if_true]
    have h30 : (f :: h).length = VideoEffects.maxHistoryLength + 1 := by
      simp only [List.length_cons] at hlen ⊢
      omega
    rw [List.dropLast_eq_take, h30]
    simp
  · simp only [hlen, if_false]
    exact (List.take_of_length_le (Nat.le_of_not_lt hlen)).symm

/-- Folding pushes over a start state of legal size yields the 30 newest
frames, newest first. -/
lemma pushFrames_eq_take {α : Type} (fs : List α) :
    ∀ (h : List α), h.length ≤ VideoEffects.maxHistoryLength →
    VideoEffects.pushFrames fs h
      = (fs.reverse ++ h).take VideoEffects.maxHistoryLength := by
  induction fs with
  | nil =>
    intro h hh
    simpa [VideoEffects.pushFrames] using (List.take_of_length_le hh).symm
  | cons f fs ih =>
    intro h hh
    have hstep : VideoEffects.pushFrames (f :: fs) h
        = VideoEffects.pushFrames fs (VideoEffects.pushFrame f h) := rfl
    have hlenpush : (VideoEffects.pushFrame f h).length
        ≤ VideoEffects.maxHistoryLength := by
      rw [pushFrame_eq_take f h hh]
      exact (List.length_take _ _).le.trans (Nat.min_le_left _ _)
    rw [hstep, ih _ hlenpush, pushFrame_eq_take f h hh,
      List.reverse_cons, List.append_assoc, List.singleton_append,
      List.take_append_eq_append_take, List.take_append_eq_append_take,
      List.take_take]
    congr 2
    exact Nat.min_eq_left (Nat.sub_le _ _)

/-- **C5.**  Starting from the empty history that `startProcessing` resets
(`this.frameHistory = []`, line 477), after any `30 + k` pushes exactly the
30 most recently pushed frames remain, newest first (`unshift` puts the
newest at index 0, `pop` evicts the oldest), and from any legally sized
history the length never exceeds the capacity 30. -/
theorem frameHistory_capacity (α : Type) (fs : List α)
    (hlen : VideoEffects.maxHistoryLength ≤ fs.length) :
    VideoEffects.pushFrames fs []
        = fs.reverse.take VideoEffects.maxHistoryLength
    ∧ (VideoEffects.pushFrames fs []).length = VideoEffects.maxHistoryLength
    ∧ ∀ (h : List α), h.length ≤ VideoEffects.maxHistoryLength →
        (VideoEffects.pushFrames fs h).length
          ≤ VideoEffects.maxHistoryLength := by
  have h1 : VideoEffects.pushFrames fs []
      = fs.reverse.take VideoEffects.maxHistoryLength := by
    simpa using pushFrames_eq_take fs [] (by simp)
  refine ⟨h1, ?_, ?_⟩
  · rw [h1, List.length_take, List.length_reverse]
    exact Nat.min_eq_left hlen
  · intro h hh
    rw [pushFrames_eq_take fs h hh, List.length_take]
    exact Nat.min_le_left _ _

/-- Witness for `frameHistory_capacity`: 31 pushes of `0..30` keep exactly
the newest 30 frames, newest first. -/
theorem frameHistory_capacity_witness :
    VideoEffects.pushFrames (List.range 31) ([] : List ℕ)
      = (List.range 31).reverse.take VideoEffects.maxHistoryLength :=
  (frameHistory_capacity ℕ (List.range 31) (by decide)).1

namespace VideoEffects

instance : Inhabited Mapping := ⟨⟨"", EffectType.none, 0, false⟩⟩

/-- A `Partial<Mapping>`: each field optionally present. -/
structure MappingUpdate where
  audioFeature : Option String := Option.none
  effectType : Option EffectType := Option.none
  intensity : Option ℚ := Option.none
  enabled : Option Bool := Option.none
deriving DecidableEq, Repr

/-- The spread merge `{ ...this.config.mappings[index], ...updates }`
(`videoEffects.ts` line 788): a field present in `updates` wins, any other
field keeps its prior value. -/
def mergeMapping (m : Mapping) (u : MappingUpdate) : Mapping :=
  { audioFeature := u.audioFeature.getD m.audioFeature
    effectType := u.effectType.getD m.effectType
    intensity := u.intensity.getD m.intensity
    enabled := u.enabled.getD m.enabled }

/-- `VideoEffectConfig` (`videoEffects.ts` lines 104-106). -/
structure VideoEffectConfig where
  mappings : List Mapping
deriving DecidableEq, Repr

/-- `VideoEffects.updateMapping` (`videoEffects.ts` lines 786-790): a guard
`index >= 0 && index < this.config.mappings.length`, then an in-place
replacement of slot `index` by the merged mapping.  In range the `getD`
default is never used. -/
def updateMapping (cfg : VideoEffectConfig) (index : ℤ)
    (u : MappingUpdate) : VideoEffectConfig :=
  if 0 ≤ index ∧ index < (cfg.mappings.length : ℤ) then
    { mappings := cfg.mappings.set index.toNat
        (mergeMapping (cfg.mappings.getD index.toNat default) u) }
  else cfg

end VideoEffects

/-- **C10.**  `updateMapping` with an out-of-range index leaves the
configuration unchanged; with an in-range index it replaces exactly the
slot at that index by the spread-merge of the partial update over the
prior mapping — every other slot is untouched, and each field of the
merged mapping is the update's value when present and the prior value
otherwise. -/
theorem updateMapping_semantics (cfg : VideoEffects.VideoEffectConfig)
    (index : ℤ) (u : VideoEffects.MappingUpdate) :
    (¬ (0 ≤ index ∧ index < (cfg.mappings.length : ℤ)) →
        VideoEffects.updateMapping cfg index u = cfg)
    ∧ ((0 ≤ index ∧ index < (cfg.mappings.length : ℤ)) →
        (VideoEffects.updateMapping cfg index u).mappings.length
            = cfg.mappings.length
        ∧ (∀ j : ℕ, (j : ℤ) ≠ index →
            (VideoEffects.updateMapping cfg index u).mappings.getD j default
              = cfg.mappings.getD j default)
        ∧ (VideoEffects.updateMapping cfg index u).mappings.getD
              index.toNat default
            = VideoEffects.mergeMapping
                (cfg.mappings.getD index.toNat default) u)
    ∧ (∀ m : VideoEffects.Mapping,
        (u.intensity = Option.none →
          (VideoEffects.mergeMapping m u).intensity = m.intensity)
        ∧ (∀ x, u.intensity = some x →
          (VideoEffects.mergeMapping m u).intensity = x)
        ∧ (u.enabled = Option.none →
          (VideoEffects.mergeMapping m u).enabled = m.enabled)
        ∧ (∀ x, u.enabled = some x →
          (VideoEffects.mergeMapping m u).enabled = x)
        ∧ (u.effectType = Option.none →
          (VideoEffects.mergeMapping m u).effectType = m.effectType)
        ∧ (∀ x, u.effectType = some x →
          (VideoEffects.mergeMapping m u).effectType = x)
        ∧ (u.audioFeature = Option.none →
          (VideoEffects.mergeMapping m u).audioFeature = m.audioFeature)
        ∧ (∀ x, u.audioFeature = some x →
          (VideoEffects.mergeMapping m u).audioFeature = x)) := by
  refine ⟨?_, ?_, ?_⟩
  · intro hout
    simp [VideoEffects.updateMapping, hout]
  · intro hin
    have hidx : index.toNat < cfg.mappings.length := by omega
    simp only [VideoEffects.updateMapping, hin, if_true]
    refine ⟨by simp, ?_, ?_⟩
    · intro j hj
      have hj' : index.toNat ≠ j := by omega
      simp [List.getD_eq_getElem?_getD, List.getElem?_set_ne hj']
    · simp [List.getD_eq_getElem?_getD, List.getElem?_set_self, hidx]
  · intro m
    refine ⟨?_, ?_, ?_, ?_, ?_, ?_, ?_, ?_⟩ <;>
      first
        | (intro h; simp [VideoEffects.mergeMapping, h])
        | (intro x h; simp [VideoEffects.mergeMapping, h])

/-- Witness for `updateMapping_semantics` at a concrete two-slot
configuration. -/
theorem updateMapping_semantics_witness :
    (VideoEffects.updateMapping
        ⟨[⟨"kick", .shake, 10, true⟩, ⟨"bass", .displacement, 30, true⟩]⟩
        1 ⟨Option.none, Option.none, some 7, Option.none⟩).mappings.getD 0 default
      = ⟨"kick", .shake, 10, true⟩ :=
  (((updateMapping_semantics
      ⟨[⟨"kick", .shake, 10, true⟩, ⟨"bass", .displacement, 30, true⟩]⟩
      1 ⟨Option.none, Option.none, some 7, Option.none⟩).2.1
    (by decide)).2.1 0 (by decide)).trans (by decide)

namespace VideoEffects

/-- An `ImageData`: RGBA bytes in row-major order.  A well-formed buffer
has `data.length = 4 * width * height` and bytes `≤ 255`; the render loop
only ever passes canvas-sized buffers. -/
structure ImgData where
  width : ℕ
  height : ℕ
  data : List ℕ
deriving DecidableEq, Repr

/-- Storing a float into a `Uint8ClampedArray` clamps to `[0, 255]` and
rounds to the nearest integer, ties to even. -/
def toClampedByte (q : ℚ) : ℕ :=
  let c := min (max q 0) 255
  let f : ℤ := ⌊c⌋
  let frac := c - f
  if frac < 1/2 then f.toNat
  else if 1/2 < frac then (f + 1).toNat
  else if f % 2 = 0 then f.toNat else (f + 1).toNat

/-- `applyDisplacementEffect` (`videoEffects.ts` lines 567-602): per pixel,
the red channel of the displacement map drives both offsets
`(map/255 - 0.5) * intensity * (width|height) * 0.1`; the sampled
coordinates are floored and clamped to the buffer bounds, and the sampled
pixel is copied whole.  Canvas width/height equal the frame size in the
render loop. -/
def applyDisplacementEffect (src map_ : ImgData) (intensity : ℚ) : ImgData :=
  let w := src.width
  let h := src.height
  { width := w, height := h,
    data := (List.range (4 * w * h)).map (fun j =>
      let p := j / 4
      let c := j % 4
      let x := p % w
      let y := p / w
      let d := (map_.data.getD (4 * p) 0 : ℚ) / 255 - 1/2
      let dX := d * intensity * w * (1/10)
      let dY := d * intensity * h * (1/10)
      let sourceX : ℤ := max 0 (min ((w : ℤ) - 1) ⌊(x : ℚ) + dX⌋)
      let sourceY : ℤ := max 0 (min ((h : ℤ) - 1) ⌊(y : ℚ) + dY⌋)
      src.data.getD (4 * (sourceY.toNat * w + sourceX.toNat) + c) 0) }

/-- `maxFrameOffset` of `applyTimeMachineEffect` (line 615):
`Math.min(Math.floor(intensity), this.frameHistory.length - 1)`. -/
def tmMaxFrameOffset (intensity : ℚ) (histLen : ℕ) : ℤ :=
  min ⌊intensity⌋ ((histLen : ℤ) - 1)

/-- The history index sampled for a pixel whose time-map red byte is
`timeByte` (lines 623-630): `frameOffset = floor((1 - t) * maxFrameOffset)`
clamped by `Math.min(frameOffset, length - 1)`. -/
def tmFrameIdx (timeByte : ℕ) (intensity : ℚ) (histLen : ℕ) : ℤ :=
  let timeValue : ℚ := (timeByte : ℚ) / 255
  let frameOffset : ℤ :=
    ⌊(1 - timeValue) * (tmMaxFrameOffset intensity histLen : ℚ)⌋
  min frameOffset ((histLen : ℤ) - 1)

/-- `applyTimeMachineEffect` (lines 605-652): below 2 history frames the
source buffer is returned unchanged; otherwise each pixel is taken from
the history frame `tmFrameIdx` (guarded by `0 ≤ idx < length`, else the
current frame) with alpha forced to 255.  The `getD _ src` default is
never used under the guard. -/
def applyTimeMachineEffect (src timeMap : ImgData) (intensity : ℚ)
    (hist : List ImgData) : ImgData :=
  if hist.length < 2 then src
  else
    let w := src.width
    let h := src.height
    { width := w, height := h,
      data := (List.range (4 * w * h)).map (fun j =>
        let p := j / 4
        let c := j % 4
        let idx := tmFrameIdx (timeMap.data.getD (4 * p) 0) intensity
          hist.length
        if 0 ≤ idx ∧ idx < (hist.length : ℤ) then
          if c = 3 then 255
          else (hist.getD idx.toNat src).data.getD j 0
        else src.data.getD j 0) }

/-- The noise branch of `applyGenericEffect` (lines 675-689): per pixel one
random gate and one random amplitude (`gate`, `noiseRand` are the two
`Math.random()` streams), the same perturbation added to R, G and B and
stored through the clamped-byte conversion; alpha untouched. -/
def applyNoiseEffect (src : ImgData) (value intensity : ℚ)
    (gate noiseRand : ℕ → ℚ) : ImgData :=
  { width := src.width, height := src.height,
    data := (List.range src.data.length).map (fun j =>
      let p := j / 4
      if j % 4 = 3 then src.data.getD j 0
      else if 1/2 < gate p then
        toClampedByte ((src.data.getD j 0 : ℚ)
          + (noiseRand p - 1/2) * intensity * 255 * value)
      else src.data.getD j 0) }

/-- The pixelate branch of `applyGenericEffect` (lines 691-714).  After
`putImageData(source)` the code clears the whole temp canvas (`clearRect`,
line 696) and then draws the canvas onto itself (scale down by
`pixelSize`, then up).  Each `drawImage` snapshots the current — already
cleared, all transparent black — bitmap, and resampling an all-zero bitmap
yields zero for every pixel, so `getImageData` returns the all-zero buffer
for every pixelSize (at the zero boundary `pixelSize = 1` both draws are
identity copies of the cleared canvas). -/
def applyPixelateEffect (src : ImgData) (value intensity : ℚ) : ImgData :=
  let _pixelSize : ℤ := max 1 ⌊value * intensity⌋
  { width := src.width, height := src.height,
    data := List.replicate (4 * src.width * src.height) 0 }

/-- The rgb branch of `applyGenericEffect` (lines 716-747): offset
`floor(value * intensity)`; zero offset returns the source object; else
red samples `x - offset` and blue samples `x + offset` where in bounds,
green/alpha and out-of-bounds channels keep the copied source byte. -/
def applyRgbEffect (src : ImgData) (value intensity : ℚ) : ImgData :=
  let rgbOffset : ℤ := ⌊value * intensity⌋
  if rgbOffset = 0 then src
  else
    let w := src.width
    let h := src.height
    { width := w, height := h,
      data := (List.range (4 * w * h)).map (fun j =>
        let p := j / 4
        let c := j % 4
        let x : ℤ := (p % w : ℕ)
        let y := p / w
        if c = 0 then
          let rX := x - rgbOffset
          if 0 ≤ rX ∧ rX < (w : ℤ) then
            src.data.getD (4 * (y * w + rX.toNat)) 0
          else src.data.getD j 0
        else if c = 2 then
          let bX := x + rgbOffset
          if 0 ≤ bX ∧ bX < (w : ℤ) then
            src.data.getD (4 * (y * w + bX.toNat) + 2) 0
          else src.data.getD j 0
        else src.data.getD j 0) }

/-- The blur branch of `applyGenericEffect` (lines 749-766): radius
`floor(value * intensity)`; zero radius returns the source object; the
positive-radius path runs the platform canvas filter `blur(<radius>px)`,
modelled as the explicit parameter `canvasBlur`. -/
def applyBlurEffect (src : ImgData) (value intensity : ℚ)
    (canvasBlur : ℤ → ImgData → ImgData) : ImgData :=
  let blurRadius : ℤ := ⌊value * intensity⌋
  if blurRadius = 0 then src
  else canvasBlur blurRadius src

/-- `putImageData` coordinates are IDL `long`s: the float is truncated
toward zero. -/
def jsTrunc (q : ℚ) : ℤ := if 0 ≤ q then ⌊q⌋ else -⌊-q⌋

/-- The shake branch of `applyGenericEffect` (lines 768-777): a random
translation by `(rand - 0.5) * value * intensity` in each axis (`rx`, `ry`
are the two `Math.random()` draws), the frame drawn at that offset onto a
cleared canvas, vacated regions transparent black. -/
def applyShakeEffect (src : ImgData) (value intensity : ℚ)
    (rx ry : ℚ) : ImgData :=
  let shakeX := (rx - 1/2) * value * intensity
  let shakeY := (ry - 1/2) * value * intensity
  let dx := jsTrunc shakeX
  let dy := jsTrunc shakeY
  let w := src.width
  let h := src.height
  { width := w, height := h,
    data := (List.range (4 * w * h)).map (fun j =>
      let p := j / 4
      let c := j % 4
      let sx := ((p % w : ℕ) : ℤ) - dx
      let sy := ((p / w : ℕ) : ℤ) - dy
      if 0 ≤ sx ∧ sx < (w : ℤ) ∧ 0 ≤ sy ∧ sy < (h : ℤ) then
        src.data.getD (4 * (sy.toNat * w + sx.toNat) + c) 0
      else 0) }

/-- `applyGenericEffect` (lines 655-784): clamps the audio value into
`[0,1]` and dispatches on the effect type; the default branch returns the
source object. -/
def applyGenericEffect (src : ImgData) (effectType : EffectType)
    (audioValue intensity : ℚ) (gate noiseRand : ℕ → ℚ) (rx ry : ℚ)
    (canvasBlur : ℤ → ImgData → ImgData) : ImgData :=
  let value := clamp01 audioValue
  match effectType with
  | .noise => applyNoiseEffect src value intensity gate noiseRand
  | .pixelate => applyPixelateEffect src value intensity
  | .rgb => applyRgbEffect src value intensity
  | .blur => applyBlurEffect src value intensity canvasBlur
  | .shake => applyShakeEffect src value intensity rx ry
  | _ => src

end VideoEffects

/-- Rebuilding a byte list from its own reads. -/
lemma range_map_getD (l : List ℕ) :
    (List.range l.length).map (fun j => l.getD j 0) = l := by
  apply List.ext_getElem
  · simp
  · intro i h1 h2
    simp [List.getD_eq_getElem?_getD, List.getElem?_eq_getElem h2]

/-- `Math.max(0, Math.min(limit - 1, a))` is the identity in range. -/
lemma clampCoord_eq (a wz : ℤ) (h1 : 0 ≤ a) (h2 : a < wz) :
    max 0 (min (wz - 1) a) = a := by omega

/-- Storing a byte-valued float into a `Uint8ClampedArray` is the
identity. -/
lemma toClampedByte_nat (n : ℕ) (hn : n ≤ 255) :
    VideoEffects.toClampedByte n = n := by
  have hc : min (max (n : ℚ) 0) 255 = (n : ℚ) := by
    rw [max_eq_left (by positivity), min_eq_left (by exact_mod_cast hn)]
  simp only [VideoEffects.toClampedByte, hc, Int.floor_natCast]
  norm_num

lemma clamp01_zero : clamp01 0 = 0 := by norm_num [clamp01]

namespace VideoEffects

/-- The noise branch is a byte no-op when the feature value or the
intensity is 0: the perturbation is 0 in both random branches. -/
lemma applyNoiseEffect_zero (src : ImgData) (value intensity : ℚ)
    (gate noiseRand : ℕ → ℚ)
    (hb : ∀ b ∈ src.data, b ≤ 255)
    (hz : value = 0 ∨ intensity = 0) :
    applyNoiseEffect src value intensity gate noiseRand = src := by
  obtain ⟨w, h, d⟩ := src
  simp only at hb
  simp only [applyNoiseEffect]
  congr 1
  rw [List.map_congr_left ?_, range_map_getD]
  intro j hj
  by_cases h3 : j % 4 = 3
  · simp [h3]
  · simp only [h3, if_false]
    by_cases hg : (1 : ℚ)/2 < gate (j / 4)
    · simp only [hg, if_true]
      have hzero : (noiseRand (j / 4) - 1/2) * intensity * 255 * value = 0 := by
        rcases hz with hz | hz <;> rw [hz] <;> ring
      rw [hzero, add_zero]
      exact toClampedByte_nat _ (getD_le_255 hb j)
    · rw [if_neg hg]

/-- The displacement effect with scaled intensity 0 copies every pixel
from its own position. -/
lemma applyDisplacementEffect_zero (src map_ : ImgData)
    (hlen : src.data.length = 4 * src.width * src.height) :
    applyDisplacementEffect src map_ 0 = src := by
  obtain ⟨w, h, d⟩ := src
  simp only at hlen
  simp only [applyDisplacementEffect]
  congr 1
  rw [show (4 * w * h) = d.length from hlen.symm]
  rw [List.map_congr_left ?_, range_map_getD]
  intro j hj
  have hjlt : j < d.length := List.mem_range.mp hj
  have hassoc : 4 * w * h = 4 * (w * h) := by ring
  have hwh : 0 < w * h := by
    rcases Nat.eq_zero_or_pos (w * h) with h0 | h0
    · omega
    · exact h0
  have hw : 0 < w := by
    rcases Nat.eq_zero_or_pos w with h0 | h0
    · subst h0
      simp at hwh
    · exact h0
  have hp : j / 4 < w * h := by omega
  have hx : j / 4 % w < w := Nat.mod_lt _ hw
  have hy : j / 4 / w < h := Nat.div_lt_of_lt_mul (by omega)
  simp only [mul_zero, zero_mul, add_zero, Int.floor_natCast]
  rw [clampCoord_eq _ _ (Int.natCast_nonneg _) (by exact_mod_cast hy),
    clampCoord_eq _ _ (Int.natCast_nonneg _) (by exact_mod_cast hx),
    Int.toNat_natCast, Int.toNat_natCast]
  congr 1
  have e1 : w * (j / 4 / w) + (j / 4) % w = j / 4 := Nat.div_add_mod _ _
  have e2 : 4 * (j / 4) + j % 4 = j := Nat.div_add_mod _ _
  have hcomm : (j / 4 / w) * w = w * (j / 4 / w) := Nat.mul_comm _ _
  omega

/-- The rgb branch returns the source object when the offset floors to 0. -/
lemma applyRgbEffect_zero (src : ImgData) (value intensity : ℚ)
    (hz : value * intensity = 0) :
    applyRgbEffect src value intensity = src := by
  unfold applyRgbEffect
  rw [hz]
  simp

/-- The blur branch returns the source object when the radius floors
to 0. -/
lemma applyBlurEffect_zero (src : ImgData) (value intensity : ℚ)
    (canvasBlur : ℤ → ImgData → ImgData)
    (hz : value * intensity = 0) :
    applyBlurEffect src value intensity canvasBlur = src := by
  unfold applyBlurEffect
  rw [hz]
  simp

/-- The shake branch with zero offsets copies every pixel from its own
position. -/
lemma applyShakeEffect_zero (src : ImgData) (value intensity : ℚ)
    (rx ry : ℚ)
    (hlen : src.data.length = 4 * src.width * src.height)
    (hz : value = 0 ∨ intensity = 0) :
    applyShakeEffect src value intensity rx ry = src := by
  obtain ⟨w, h, d⟩ := src
  simp only at hlen
  have hx0 : (rx - 1/2) * value * intensity = 0 := by
    rcases hz with hz | hz <;> rw [hz] <;> ring
  have hy0 : (ry - 1/2) * value * intensity = 0 := by
    rcases hz with hz | hz <;> rw [hz] <;> ring
  have ht : jsTrunc 0 = 0 := by simp [jsTrunc]
  simp only [applyShakeEffect, hx0, hy0, ht, sub_zero]
  congr 1
  rw [show (4 * w * h) = d.length from hlen.symm]
  rw [List.map_congr_left ?_, range_map_getD]
  intro j hj
  have hjlt : j < d.length := List.mem_range.mp hj
  have hassoc : 4 * w * h = 4 * (w * h) := by ring
  have hwh : 0 < w * h := by
    rcases Nat.eq_zero_or_pos (w * h) with h0 | h0
    · omega
    · exact h0
  have hw : 0 < w := by
    rcases Nat.eq_zero_or_pos w with h0 | h0
    · subst h0
      simp at hwh
    · exact h0
  have hp : j / 4 < w * h := by omega
  have hx : j / 4 % w < w := Nat.mod_lt _ hw
  have hy : j / 4 / w < h := Nat.div_lt_of_lt_mul (by omega)
  rw [if_pos ⟨Int.natCast_nonneg _, by exact_mod_cast hx,
    Int.natCast_nonneg _, by exact_mod_cast hy⟩,
    Int.toNat_natCast, Int.toNat_natCast]
  congr 1
  have e1 : w * (j / 4 / w) + (j / 4) % w = j / 4 := Nat.div_add_mod _ _
  have e2 : 4 * (j / 4) + j % 4 = j := Nat.div_add_mod _ _
  have hcomm : (j / 4 / w) * w = w * (j / 4 / w) := Nat.mul_comm _ _
  omega

/-- The time machine effect at scaled intensity 0 with an active history
returns the newest history frame's RGB with alpha forced to 255 — not the
source buffer. -/
lemma applyTimeMachineEffect_zero (src timeMap h0 h1 : ImgData)
    (rest : List ImgData) :
    applyTimeMachineEffect src timeMap 0 (h0 :: h1 :: rest)
      = ⟨src.width, src.height,
         (List.range (4 * src.width * src.height)).map
           (fun j => if j % 4 = 3 then 255 else h0.data.getD j 0)⟩ := by
  have hlen : ¬ ((h0 :: h1 :: rest).length < 2) := by
    simp
  rw [applyTimeMachineEffect, if_neg hlen]
  dsimp only
  congr 1
  apply List.map_congr_left
  intro j hj
  have hidx : tmFrameIdx (timeMap.data.getD (4 * (j / 4)) 0) 0
      (h0 :: h1 :: rest).length = 0 := by
    unfold tmFrameIdx tmMaxFrameOffset
    have hm : min ⌊(0 : ℚ)⌋ (((h0 :: h1 :: rest).length : ℤ) - 1) = 0 := by
      rw [Int.floor_zero]
      simp only [List.length_cons]
      omega
    rw [hm]
    norm_num
    omega
  simp only [hidx]
  rw [if_pos ⟨le_refl 0, by simp only [List.length_cons]; push_cast; omega⟩]
  simp

end VideoEffects

/-- **C4, amended.**  At the zero boundary (`featureValue = 0` or
`intensity = 0`) the noise, rgb, blur, shake and displacement effects
return a buffer byte-equal to their input.  The timeMachine effect is
*not* a byte no-op: with an active history it returns the newest history
frame's RGB with alpha forced to 255 (byte-equal to the input only when
the input is that frame and already opaque); and the pixelate branch is
not a byte no-op either — it round-trips through a canvas that was cleared
before being drawn onto itself, producing an all-transparent buffer (see
the counterexample). -/
theorem effects_zero_boundary (src map_ timeMap : VideoEffects.ImgData)
    (audioValue intensity : ℚ) (gate noiseRand : ℕ → ℚ) (rx ry : ℚ)
    (canvasBlur : ℤ → VideoEffects.ImgData → VideoEffects.ImgData)
    (h0 h1 : VideoEffects.ImgData) (rest : List VideoEffects.ImgData)
    (hlen : src.data.length = 4 * src.width * src.height)
    (hb : ∀ b ∈ src.data, b ≤ 255)
    (hz : audioValue = 0 ∨ intensity = 0) :
    VideoEffects.applyGenericEffect src .noise audioValue intensity
        gate noiseRand rx ry canvasBlur = src
    ∧ VideoEffects.applyGenericEffect src .rgb audioValue intensity
        gate noiseRand rx ry canvasBlur = src
    ∧ VideoEffects.applyGenericEffect src .blur audioValue intensity
        gate noiseRand rx ry canvasBlur = src
    ∧ VideoEffects.applyGenericEffect src .shake audioValue intensity
        gate noiseRand rx ry canvasBlur = src
    ∧ VideoEffects.applyDisplacementEffect src map_
        (audioValue * intensity / 50) = src
    ∧ VideoEffects.applyTimeMachineEffect src timeMap
        (audioValue * intensity) (h0 :: h1 :: rest)
      = ⟨src.width, src.height,
         (List.range (4 * src.width * src.height)).map
           (fun j => if j % 4 = 3 then 255 else h0.data.getD j 0)⟩ := by
  have hv : clamp01 audioValue = 0 ∨ intensity = 0 := by
    rcases hz with hz | hz
    · exact Or.inl (by rw [hz, clamp01_zero])
    · exact Or.inr hz
  have hvi : clamp01 audioValue * intensity = 0 := by
    rcases hv with hv | hv <;> rw [hv] <;> ring
  have hai : audioValue * intensity = 0 := by
    rcases hz with hz | hz <;> rw [hz] <;> ring
  refine ⟨?_, ?_, ?_, ?_, ?_, ?_⟩
  · show VideoEffects.applyNoiseEffect src (clamp01 audioValue) intensity
        gate noiseRand = src
    exact VideoEffects.applyNoiseEffect_zero src _ _ _ _ hb hv
  · show VideoEffects.applyRgbEffect src (clamp01 audioValue) intensity = src
    exact VideoEffects.applyRgbEffect_zero src _ _ hvi
  · show VideoEffects.applyBlurEffect src (clamp01 audioValue) intensity
        canvasBlur = src
    exact VideoEffects.applyBlurEffect_zero src _ _ _ hvi
  · show VideoEffects.applyShakeEffect src (clamp01 audioValue) intensity
        rx ry = src
    exact VideoEffects.applyShakeEffect_zero src _ _ _ _ hlen hv
  · rw [show audioValue * intensity / 50 = 0 by rw [hai]; ring]
    exact VideoEffects.applyDisplacementEffect_zero src map_ hlen
  · rw [hai]
    exact VideoEffects.applyTimeMachineEffect_zero src timeMap h0 h1 rest

/-- Witness for `effects_zero_boundary` on a concrete opaque 1x1 frame. -/
theorem effects_zero_boundary_witness :
    VideoEffects.applyGenericEffect ⟨1, 1, [10, 20, 30, 40]⟩ .noise 0 20
        (fun _ => 0) (fun _ => 0) 0 0 (fun _ i => i) = ⟨1, 1, [10, 20, 30, 40]⟩
    ∧ VideoEffects.applyDisplacementEffect ⟨1, 1, [10, 20, 30, 40]⟩
        ⟨1, 1, [0, 0, 0, 255]⟩ ((0 : ℚ) * 20 / 50) = ⟨1, 1, [10, 20, 30, 40]⟩ := by
  have h := effects_zero_boundary ⟨1, 1, [10, 20, 30, 40]⟩ ⟨1, 1, [0, 0, 0, 255]⟩
    ⟨1, 1, [0, 0, 0, 255]⟩ 0 20 (fun _ => 0) (fun _ => 0) 0 0 (fun _ i => i)
    ⟨1, 1, [1, 2, 3, 4]⟩ ⟨1, 1, [5, 6, 7, 8]⟩ []
    (by decide) (by decide) (Or.inl rfl)
  exact ⟨h.1, h.2.2.2.2.1⟩

/-- **C4, counterexample.**  With `featureValue = 0` the timeMachine effect
on a 1x1 frame with history `[h0, h1]` returns `h0`'s RGB with alpha 255,
which differs from the source bytes, and the pixelate effect returns the
all-transparent buffer: neither is a byte no-op at the zero boundary. -/
theorem effects_zero_boundary_counterexample :
    VideoEffects.applyTimeMachineEffect ⟨1, 1, [10, 20, 30, 40]⟩
        ⟨1, 1, [0, 0, 0, 255]⟩ ((0 : ℚ) * 20)
        [⟨1, 1, [1, 2, 3, 4]⟩, ⟨1, 1, [5, 6, 7, 8]⟩] = ⟨1, 1, [1, 2, 3, 255]⟩
    ∧ (⟨1, 1, [1, 2, 3, 255]⟩ : VideoEffects.ImgData) ≠ ⟨1, 1, [10, 20, 30, 40]⟩
    ∧ VideoEffects.applyGenericEffect ⟨1, 1, [10, 20, 30, 40]⟩ .pixelate 0 20
        (fun _ => 0) (fun _ => 0) 0 0 (fun _ i => i) = ⟨1, 1, [0, 0, 0, 0]⟩
    ∧ (⟨1, 1, [0, 0, 0, 0]⟩ : VideoEffects.ImgData) ≠ ⟨1, 1, [10, 20, 30, 40]⟩ := by
  refine ⟨?_, by decide, ?_, by decide⟩
  · rw [show ((0 : ℚ) * 20) = 0 by ring]
    exact (VideoEffects.applyTimeMachineEffect_zero _ _ _ _ _).trans (by decide)
  · decide

/-- **C6, amended.**  (i) With fewer than 2 history frames the timeMachine
effect returns its input buffer unchanged.  (ii) When it activates, every
history index it reads (a `tmFrameIdx` passing the `0 ≤ idx < length`
guard) lies in `[0, max 0 (min ⌊intensity⌋ (historyLength - 1))]` and is
in bounds.  (iii) For `intensity ≥ 0` this is exactly the claimed interval
`[0, min ⌊intensity⌋ (historyLength - 1)]`; a negative intensity can still
read index 0, outside the claim's (then empty) interval — see the
counterexample. -/
theorem timeMachine_history_access :
    (∀ (src timeMap : VideoEffects.ImgData) (intensity : ℚ)
        (hist : List VideoEffects.ImgData), hist.length < 2 →
        VideoEffects.applyTimeMachineEffect src timeMap intensity hist = src)
    ∧ (∀ (tb : ℕ) (intensity : ℚ) (len : ℕ), tb ≤ 255 → 2 ≤ len →
        0 ≤ VideoEffects.tmFrameIdx tb intensity len →
        VideoEffects.tmFrameIdx tb intensity len < (len : ℤ) →
        VideoEffects.tmFrameIdx tb intensity len
          ≤ max 0 (VideoEffects.tmMaxFrameOffset intensity len))
    ∧ (∀ (tb : ℕ) (intensity : ℚ) (len : ℕ), tb ≤ 255 → 2 ≤ len →
        0 ≤ intensity →
        0 ≤ VideoEffects.tmFrameIdx tb intensity len
        ∧ VideoEffects.tmFrameIdx tb intensity len
            ≤ VideoEffects.tmMaxFrameOffset intensity len
        ∧ VideoEffects.tmFrameIdx tb intensity len < (len : ℤ)) := by
  have key : ∀ (tb : ℕ) (intensity : ℚ) (len : ℕ), tb ≤ 255 → 2 ≤ len →
      (VideoEffects.tmFrameIdx tb intensity len
          ≤ VideoEffects.tmMaxFrameOffset intensity len
        ∨ VideoEffects.tmFrameIdx tb intensity len ≤ 0)
      ∧ VideoEffects.tmFrameIdx tb intensity len < (len : ℤ)
      ∧ (0 ≤ VideoEffects.tmMaxFrameOffset intensity len →
          0 ≤ VideoEffects.tmFrameIdx tb intensity len) := by
    intro tb intensity len htb hlen
    have hlenZ : (2 : ℤ) ≤ (len : ℤ) := by exact_mod_cast hlen
    have ht0 : (0 : ℚ) ≤ (tb : ℚ) / 255 := by positivity
    have ht1 : (tb : ℚ) / 255 ≤ 1 := by
      rw [div_le_one (by norm_num)]
      exact_mod_cast htb
    have h1t0 : (0 : ℚ) ≤ 1 - (tb : ℚ) / 255 := by linarith
    have h1t1 : 1 - (tb : ℚ) / 255 ≤ 1 := by linarith
    simp only [VideoEffects.tmFrameIdx]
    set M : ℤ := VideoEffects.tmMaxFrameOffset intensity len with hM
    refine ⟨?_, ?_, ?_⟩
    · by_cases hM0 : 0 ≤ M
      · left
        have hprod : (1 - (tb : ℚ) / 255) * (M : ℚ) ≤ (M : ℚ) := by
          have hMq : (0 : ℚ) ≤ (M : ℚ) := by exact_mod_cast hM0
          nlinarith
        calc min ⌊(1 - (tb : ℚ) / 255) * (M : ℚ)⌋ ((len : ℤ) - 1)
            ≤ ⌊(1 - (tb : ℚ) / 255) * (M : ℚ)⌋ := min_le_left _ _
          _ ≤ ⌊(M : ℚ)⌋ := Int.floor_le_floor hprod
          _ = M := Int.floor_intCast M
      · right
        have hMq : (M : ℚ) ≤ 0 := by
          have : M ≤ 0 := by omega
          exact_mod_cast this
        have hprod : (1 - (tb : ℚ) / 255) * (M : ℚ) ≤ 0 := by nlinarith
        calc min ⌊(1 - (tb : ℚ) / 255) * (M : ℚ)⌋ ((len : ℤ) - 1)
            ≤ ⌊(1 - (tb : ℚ) / 255) * (M : ℚ)⌋ := min_le_left _ _
          _ ≤ ⌊(0 : ℚ)⌋ := Int.floor_le_floor hprod
          _ = 0 := Int.floor_zero
    · calc min ⌊(1 - (tb : ℚ) / 255) * (M : ℚ)⌋ ((len : ℤ) - 1)
          ≤ (len : ℤ) - 1 := min_le_right _ _
        _ < (len : ℤ) := by omega
    · intro hM0
      have hMq : (0 : ℚ) ≤ (M : ℚ) := by exact_mod_cast hM0
      have hprod : (0 : ℚ) ≤ (1 - (tb : ℚ) / 255) * (M : ℚ) :=
        mul_nonneg h1t0 hMq
      have hfo : (0 : ℤ) ≤ ⌊(1 - (tb : ℚ) / 255) * (M : ℚ)⌋ :=
        Int.le_floor.mpr (by exact_mod_cast hprod)
      exact le_min hfo (by omega)
  refine ⟨?_, ?_, ?_⟩
  · intro src timeMap intensity hist hlt
    unfold VideoEffects.applyTimeMachineEffect
    rw [if_pos hlt]
  · intro tb intensity len htb hlen hge _hlt
    rcases (key tb intensity len htb hlen).1 with h | h
    · exact h.trans (le_max_right _ _)
    · exact h.trans (le_max_left _ _)
  · intro tb intensity len htb hlen hint
    have hM0 : 0 ≤ VideoEffects.tmMaxFrameOffset intensity len := by
      have hfl : (0 : ℤ) ≤ ⌊intensity⌋ := Int.le_floor.mpr (by exact_mod_cast hint)
      have hlenZ : (2 : ℤ) ≤ (len : ℤ) := by exact_mod_cast hlen
      unfold VideoEffects.tmMaxFrameOffset
      omega
    obtain ⟨h1, h2, h3⟩ := key tb intensity len htb hlen
    refine ⟨h3 hM0, ?_, h2⟩
    rcases h1 with h | h
    · exact h
    · exact h.trans hM0

/-- Witness for `timeMachine_history_access`: a single-frame history leaves
the buffer unchanged, and at `intensity = 3`, `timeByte = 0`, history
length 2 the sampled index obeys the claimed interval. -/
theorem timeMachine_history_access_witness :
    VideoEffects.applyTimeMachineEffect ⟨1, 1, [10, 20, 30, 40]⟩
        ⟨1, 1, [0, 0, 0, 255]⟩ 5 [⟨1, 1, [1, 2, 3, 4]⟩] = ⟨1, 1, [10, 20, 30, 40]⟩
    ∧ (0 ≤ VideoEffects.tmFrameIdx 0 3 2
        ∧ VideoEffects.tmFrameIdx 0 3 2 ≤ VideoEffects.tmMaxFrameOffset 3 2
        ∧ VideoEffects.tmFrameIdx 0 3 2 < (2 : ℤ)) :=
  ⟨timeMachine_history_access.1 _ _ 5 _ (by decide),
   timeMachine_history_access.2.2 0 3 2 (by decide) (by decide) (by norm_num)⟩

/-- **C6, counterexample.**  At `intensity = -1`, a white time-map byte
(255) and history length 2 the guard passes and history index 0 is read,
but the claim's interval `[0, min ⌊intensity⌋ (historyLength - 1)]`
`= [0, -1]` is empty: the read index does not lie in it. -/
theorem timeMachine_index_interval_counterexample :
    VideoEffects.tmFrameIdx 255 (-1) 2 = 0
    ∧ (0 ≤ VideoEffects.tmFrameIdx 255 (-1) 2
        ∧ VideoEffects.tmFrameIdx 255 (-1) 2 < (2 : ℤ))
    ∧ ¬ VideoEffects.tmFrameIdx 255 (-1) 2
        ≤ VideoEffects.tmMaxFrameOffset (-1) 2 := by
  have hM : VideoEffects.tmMaxFrameOffset (-1) 2 = -1 := by
    norm_num [VideoEffects.tmMaxFrameOffset]
  have h : VideoEffects.tmFrameIdx 255 (-1) 2 = 0 := by
    simp only [VideoEffects.tmFrameIdx, hM]
    norm_num
  refine ⟨h, ⟨by rw [h], by rw [h]; norm_num⟩, by rw [h, hM]; norm_num⟩

namespace MLAudioProcessor

/-- `MLAudioProcessor.getAverageForBand` (`mlAudioProcessor.ts` lines
671-696, the smoothing/threshold variant): sums the clamped normalized
amplitudes `clamp((v + 100)/100)` over the inclusive bin range, tracks the
peak, normalizes the sum by `highBin - lowBin` and blends
`average * 0.6 + peak * 0.4`.  The JS peak accumulator starts at
`-Infinity`; the loop runs at least once and all values are `≥ 0`, so a
fold seeded with 0 computes the same maximum.  Out-of-range JS reads would
be `NaN`; every theorem keeps the reads in range, where the `getD _ (-100)`
default (normalizing to 0) is never used. -/
def getAverageForBand (frequencyData : List ℚ) (minFreq maxFreq : ℚ)
    (nyquist : ℚ) (binCount : ℕ) : ℚ :=
  let lowBin : ℤ := ⌊minFreq / nyquist * binCount⌋
  let highBin : ℤ := ⌊maxFreq / nyquist * binCount⌋
  let binRange : ℤ := highBin - lowBin
  if binRange ≤ 0 then 0
  else
    let vals := (List.range (highBin + 1 - lowBin).toNat).map
      (fun (k : ℕ) =>
        max 0 (min 1 ((frequencyData.getD (lowBin + (k : ℤ)).toNat (-100)
          + 100) / 100)))
    vals.sum / binRange * (6/10) + vals.foldl max 0 * (4/10)

/-- `MLAudioProcessor.calculateEnergy` (lines 698-706): mean clamped
normalized amplitude over the whole spectrum. -/
def calculateEnergy (frequencyData : List ℚ) : ℚ :=
  (frequencyData.map (fun v => max 0 (min 1 ((v + 100) / 100)))).sum
    / frequencyData.length

/-- `MLAudioProcessor.calculateRhythm` (lines 708-712):
`pow(kick, 1.8) * 0.7 + pow(snare, 1.5) * 0.3`.  `Math.pow` with
non-integer exponents is a platform real-arithmetic primitive, passed in
as `powF`. -/
def calculateRhythm (powF : ℚ → ℚ → ℚ) (kick snare : ℚ) : ℚ :=
  powF kick (9/5) * (7/10) + powF snare (3/2) * (3/10)

/-- `this.smoothingFactor` (line 362). -/
def smoothingFactor : ℚ := 8/10

/-- `this.kickThreshold` (line 363). -/
def kickThreshold : ℚ := 3/20

/-- `this.snareThreshold` (line 364). -/
def snareThreshold : ℚ := 3/25

/-- `MLAudioProcessor.smoothValue` (lines 667-669):
`smoothingFactor * last + (1 - smoothingFactor) * current`. -/
def smoothValue (currentValue lastValue : ℚ) : ℚ :=
  smoothingFactor * lastValue + (1 - smoothingFactor) * currentValue

/-- The instance state read by the feature path: analyser presence,
playback flag, model flag, the `lastFeatures` smoothing memory and the
audio context sample rate (`nyquist` falls back to 22050 without one). -/
structure MLState where
  hasAnalyser : Bool
  isPlaying : Bool
  isModelLoaded : Bool
  lastFeatures : AudioFeatures
  sampleRate : Option ℚ

/-- The nyquist computation of `performBasicAnalysis` (line 631). -/
def nyquistOf (st : MLState) : ℚ :=
  match st.sampleRate with
  | some s => s / 2
  | Option.none => 22050

/-- One raw band energy of `performBasicAnalysis`. -/
def rawBand (st : MLState) (frequencyData : List ℚ) (minF maxF : ℚ) : ℚ :=
  getAverageForBand frequencyData minF maxF (nyquistOf st)
    frequencyData.length

/-- `MLAudioProcessor.performBasicAnalysis` (lines 621-665): raw band
energies (kick band 40-100 Hz in this variant), exponential smoothing
against `lastFeatures`, minimum-activation thresholds for kick and snare
only, whole-spectrum energy, rhythm from the thresholded kick/snare, and
the smoothed+thresholded vector stored back into `lastFeatures`. -/
def performBasicAnalysis (st : MLState) (frequencyData : List ℚ)
    (powF : ℚ → ℚ → ℚ) : AudioFeatures × MLState :=
  let sKick := smoothValue (rawBand st frequencyData 40 100)
    st.lastFeatures.kick
  let sSnare := smoothValue (rawBand st frequencyData 120 250)
    st.lastFeatures.snare
  let sHihat := smoothValue (rawBand st frequencyData 8000 16000)
    st.lastFeatures.hihat
  let sBass := smoothValue (rawBand st frequencyData 60 250)
    st.lastFeatures.bass
  let sMids := smoothValue (rawBand st frequencyData 250 2000)
    st.lastFeatures.mids
  let sTreble := smoothValue (rawBand st frequencyData 2000 16000)
    st.lastFeatures.treble
  let kick := if sKick > kickThreshold then sKick else 0
  let snare := if sSnare > snareThreshold then sSnare else 0
  let energy := calculateEnergy frequencyData
  let rhythm := calculateRhythm powF kick snare
  let features : AudioFeatures :=
    ⟨kick, snare, sHihat, sBass, sMids, sTreble, energy, rhythm⟩
  (features, { st with lastFeatures := features })

/-- One classifier prediction `{label, score}`; the label is its character
list so that the `String.includes` substring tests are explicit. -/
structure Prediction where
  label : List Char
  score : ℚ

/-- The per-feature classifier score accumulators of
`processMLModelResults`. -/
structure BeatScores where
  kick : ℚ
  snare : ℚ
  hihat : ℚ
  bass : ℚ
  energy : ℚ

/-- JS `label.includes(sub)`: substring containment. -/
def jsIncludes (label sub : List Char) : Bool := decide (sub <:+: label)

/-- One iteration of the prediction loop (lines 584-603): each matching
label raises the matching accumulator to `max(acc, score)`;
`"bass" && !"drum"` keeps bass-drum labels out of the bass score. -/
def scoreStep (s : BeatScores) (pr : Prediction) : BeatScores :=
  let s1 := if jsIncludes pr.label "drum".toList
      || jsIncludes pr.label "bass drum".toList
      || jsIncludes pr.label "kick".toList
    then { s with kick := max s.kick pr.score } else s
  let s2 := if jsIncludes pr.label "snare".toList
      || jsIncludes pr.label "clap".toList
    then { s1 with snare := max s1.snare pr.score } else s1
  let s3 := if jsIncludes pr.label "hi-hat".toList
      || jsIncludes pr.label "hihat".toList
      || jsIncludes pr.label "cymbal".toList
    then { s2 with hihat := max s2.hihat pr.score } else s2
  let s4 := if jsIncludes pr.label "bass".toList
      && !(jsIncludes pr.label "drum".toList)
    then { s3 with bass := max s3.bass pr.score } else s3
  if jsIncludes pr.label "music".toList || jsIncludes pr.label "loud".toList
    then { s4 with energy := max s4.energy pr.score } else s4

/-- The classifier scores accumulated over all predictions, starting from
the all-zero `features` literal (lines 573-603). -/
def accumulateScores (preds : List Prediction) : BeatScores :=
  preds.foldl scoreStep ⟨0, 0, 0, 0, 0⟩

/-- `MLAudioProcessor.processMLModelResults` (lines 572-619): per-feature,
the classifier score wins exactly when it exceeds 0.3, otherwise the
band-energy value for that same feature; mids and treble always come from
the band analysis; rhythm is recomputed from the selected kick/snare. -/
def processMLModelResults (st : MLState) (results : List Prediction)
    (frequencyData : List ℚ) (powF : ℚ → ℚ → ℚ) : AudioFeatures × MLState :=
  let s := accumulateScores results
  let r := performBasicAnalysis st frequencyData powF
  let trad := r.1
  let kick := if s.kick > 3/10 then s.kick else trad.kick
  let snare := if s.snare > 3/10 then s.snare else trad.snare
  let hihat := if s.hihat > 3/10 then s.hihat else trad.hihat
  let bass := if s.bass > 3/10 then s.bass else trad.bass
  let energy := if s.energy > 3/10 then s.energy else trad.energy
  let rhythm := calculateRhythm powF kick snare
  (⟨kick, snare, hihat, bass, trad.mids, trad.treble, energy, rhythm⟩, r.2)

/-- `MLAudioProcessor.getAudioFeatures` (lines 533-559): without an
analyser or a playing source the all-zero vector is returned and nothing
is mutated; otherwise the basic analysis runs, upgraded through the
classifier when the model is loaded (`classifierResult` models the
awaited `this.mlModel(...)` call, `Option.none` standing for the caught
failure). -/
def getAudioFeatures (st : MLState) (frequencyData : List ℚ)
    (powF : ℚ → ℚ → ℚ) (classifierResult : Option (List Prediction)) :
    AudioFeatures × MLState :=
  if !st.hasAnalyser || !st.isPlaying then (zeroFeatures, st)
  else if !st.isModelLoaded then performBasicAnalysis st frequencyData powF
  else
    match classifierResult with
    | Option.none => performBasicAnalysis st frequencyData powF
    | some results => processMLModelResults st results frequencyData powF

end MLAudioProcessor

/-- **C7, amended.**  The ML extractor returns the all-zero FeatureVector
and leaves the whole state — including the `lastFeatures` smoothing
memory — untouched whenever the analyser is missing or no source is
playing.  The byte-based `AudioProcessor` checks only the analyser: with
no analyser it returns the zero vector, but it ignores the playback flag
(see the counterexample). -/
theorem analysis_unavailable_zero_vector :
    (∀ (st : MLAudioProcessor.MLState) (d : List ℚ) (powF : ℚ → ℚ → ℚ)
        (cr : Option (List MLAudioProcessor.Prediction)),
        st.hasAnalyser = false ∨ st.isPlaying = false →
        MLAudioProcessor.getAudioFeatures st d powF cr = (zeroFeatures, st))
    ∧ (∀ st : AudioProcessor.State, st.hasAnalyser = false →
        AudioProcessor.getAudioFeaturesS st = zeroFeatures) := by
  constructor
  · intro st d powF cr h
    unfold MLAudioProcessor.getAudioFeatures
    rcases h with h | h <;> rw [h] <;> simp
  · intro st h
    unfold AudioProcessor.getAudioFeaturesS AudioProcessor.getAudioFeatures
    rw [h]
    simp

/-- Witness for `analysis_unavailable_zero_vector`: a paused ML extractor
returns zeros without touching its state. -/
theorem analysis_unavailable_zero_vector_witness :
    MLAudioProcessor.getAudioFeatures
        ⟨true, false, false, zeroFeatures, some 44100⟩ [] (fun _ _ => 0)
        Option.none
      = (zeroFeatures, ⟨true, false, false, zeroFeatures, some 44100⟩) :=
  analysis_unavailable_zero_vector.1
    ⟨true, false, false, zeroFeatures, some 44100⟩ [] (fun _ _ => 0)
    Option.none (Or.inr rfl)

/-- **C7, counterexample.**  The byte-based `AudioProcessor` ignores the
playback flag: with an analyser present but nothing playing it still runs
the band analysis on the current frequency snapshot and returns a nonzero
vector instead of the all-zero one. -/
theorem ap_getAudioFeatures_ignores_playback_counterexample :
    (AudioProcessor.getAudioFeaturesS
        ⟨true, false, List.replicate 8 255, 44100⟩).hihat = 4/3
    ∧ AudioProcessor.getAudioFeaturesS
        ⟨true, false, List.replicate 8 255, 44100⟩ ≠ zeroFeatures := by
  have hh : (AudioProcessor.getAudioFeaturesS
      ⟨true, false, List.replicate 8 255, 44100⟩).hihat = 4/3 :=
    frame8_hihat_eval
  refine ⟨hh, fun heq => ?_⟩
  have h0 := congrArg AudioFeatures.hihat heq
  rw [hh] at h0
  norm_num [zeroFeatures] at h0

/-- **C8.**  On the classifier path the fallback is per-feature: each of
kick, snare, hihat, bass and energy is the classifier score exactly when
that score exceeds 0.3 and otherwise the band-energy value for that same
feature; mids and treble always come from the band analysis; and the kick
output depends only on the kick score — a low score on other features
never forces kick to fall back. -/
theorem classifier_fallback_per_feature (st : MLAudioProcessor.MLState)
    (preds : List MLAudioProcessor.Prediction) (d : List ℚ)
    (powF : ℚ → ℚ → ℚ) :
    ((MLAudioProcessor.processMLModelResults st preds d powF).1.kick
      = if (MLAudioProcessor.accumulateScores preds).kick > 3/10
        then (MLAudioProcessor.accumulateScores preds).kick
        else (MLAudioProcessor.performBasicAnalysis st d powF).1.kick)
    ∧ ((MLAudioProcessor.processMLModelResults st preds d powF).1.snare
      = if (MLAudioProcessor.accumulateScores preds).snare > 3/10
        then (MLAudioProcessor.accumulateScores preds).snare
        else (MLAudioProcessor.performBasicAnalysis st d powF).1.snare)
    ∧ ((MLAudioProcessor.processMLModelResults st preds d powF).1.hihat
      = if (MLAudioProcessor.accumulateScores preds).hihat > 3/10
        then (MLAudioProcessor.accumulateScores preds).hihat
        else (MLAudioProcessor.performBasicAnalysis st d powF).1.hihat)
    ∧ ((MLAudioProcessor.processMLModelResults st preds d powF).1.bass
      = if (MLAudioProcessor.accumulateScores preds).bass > 3/10
        then (MLAudioProcessor.accumulateScores preds).bass
        else (MLAudioProcessor.performBasicAnalysis st d powF).1.bass)
    ∧ ((MLAudioProcessor.processMLModelResults st preds d powF).1.energy
      = if (MLAudioProcessor.accumulateScores preds).energy > 3/10
        then (MLAudioProcessor.accumulateScores preds).energy
        else (MLAudioProcessor.performBasicAnalysis st d powF).1.energy)
    ∧ ((MLAudioProcessor.processMLModelResults st preds d powF).1.mids
      = (MLAudioProcessor.performBasicAnalysis st d powF).1.mids)
    ∧ ((MLAudioProcessor.processMLModelResults st preds d powF).1.treble
      = (MLAudioProcessor.performBasicAnalysis st d powF).1.treble)
    ∧ (∀ preds' : List MLAudioProcessor.Prediction,
        (MLAudioProcessor.accumulateScores preds').kick
          = (MLAudioProcessor.accumulateScores preds).kick →
        (MLAudioProcessor.processMLModelResults st preds' d powF).1.kick
          = (MLAudioProcessor.processMLModelResults st preds d powF).1.kick) := by
  refine ⟨rfl, rfl, rfl, rfl, rfl, rfl, rfl, ?_⟩
  intro preds' hk
  show (if (MLAudioProcessor.accumulateScores preds').kick > 3/10
      then (MLAudioProcessor.accumulateScores preds').kick
      else (MLAudioProcessor.performBasicAnalysis st d powF).1.kick)
    = if (MLAudioProcessor.accumulateScores preds).kick > 3/10
      then (MLAudioProcessor.accumulateScores preds).kick
      else (MLAudioProcessor.performBasicAnalysis st d powF).1.kick
  rw [hk]

/-- Witness for `classifier_fallback_per_feature`: a drum prediction list
and the same list extended by an unrelated loud label give the same kick
output. -/
theorem classifier_fallback_per_feature_witness :
    (MLAudioProcessor.processMLModelResults
        ⟨true, true, true, zeroFeatures, some 44100⟩
        [⟨"drum".toList, 1/2⟩, ⟨"loud".toList, 1⟩] [] (fun _ _ => 0)).1.kick
      = (MLAudioProcessor.processMLModelResults
        ⟨true, true, true, zeroFeatures, some 44100⟩
        [⟨"drum".toList, 1/2⟩] [] (fun _ _ => 0)).1.kick :=
  (classifier_fallback_per_feature ⟨true, true, true, zeroFeatures, some 44100⟩
      [⟨"drum".toList, 1/2⟩] [] (fun _ _ => 0)).2.2.2.2.2.2.2
    [⟨"drum".toList, 1/2⟩, ⟨"loud".toList, 1⟩]
    (by
      have c1 : (MLAudioProcessor.jsIncludes "loud".toList "drum".toList
          || MLAudioProcessor.jsIncludes "loud".toList "bass drum".toList
          || MLAudioProcessor.jsIncludes "loud".toList "kick".toList) = false := by
        decide
      have c2 : (MLAudioProcessor.jsIncludes "loud".toList "snare".toList
          || MLAudioProcessor.jsIncludes "loud".toList "clap".toList) = false := by
        decide
      have c3 : (MLAudioProcessor.jsIncludes "loud".toList "hi-hat".toList
          || MLAudioProcessor.jsIncludes "loud".toList "hihat".toList
          || MLAudioProcessor.jsIncludes "loud".toList "cymbal".toList) = false := by
        decide
      have c4 : (MLAudioProcessor.jsIncludes "loud".toList "bass".toList
          && !(MLAudioProcessor.jsIncludes "loud".toList "drum".toList)) = false := by
        decide
      simp only [MLAudioProcessor.accumulateScores, List.foldl,
        MLAudioProcessor.scoreStep, c1, c2, c3, c4, Bool.false_eq_true,
        if_false]
      split <;> rfl)

/-- **C9, amended.**  The band-energy analysis applies a minimum-activation
threshold to kick (0.15) and snare (0.12) only: at or below the threshold
the reported value is exactly 0, above it the smoothed energy.  The hihat
feature has no threshold — its reported value is always the smoothed
band energy. -/
theorem percussive_threshold_per_feature (st : MLAudioProcessor.MLState)
    (d : List ℚ) (powF : ℚ → ℚ → ℚ) :
    ((MLAudioProcessor.performBasicAnalysis st d powF).1.kick
      = if MLAudioProcessor.smoothValue (MLAudioProcessor.rawBand st d 40 100)
            st.lastFeatures.kick > MLAudioProcessor.kickThreshold
        then MLAudioProcessor.smoothValue (MLAudioProcessor.rawBand st d 40 100)
            st.lastFeatures.kick
        else 0)
    ∧ ((MLAudioProcessor.performBasicAnalysis st d powF).1.snare
      = if MLAudioProcessor.smoothValue (MLAudioProcessor.rawBand st d 120 250)
            st.lastFeatures.snare > MLAudioProcessor.snareThreshold
        then MLAudioProcessor.smoothValue (MLAudioProcessor.rawBand st d 120 250)
            st.lastFeatures.snare
        else 0)
    ∧ ((MLAudioProcessor.performBasicAnalysis st d powF).1.hihat
      = MLAudioProcessor.smoothValue (MLAudioProcessor.rawBand st d 8000 16000)
          st.lastFeatures.hihat) :=
  ⟨rfl, rfl, rfl⟩

/-- **C9, counterexample.**  On a quiet frame the smoothed hihat energy is
`3/1250 = 0.0024`, below every threshold constant the code defines (0.15
and 0.12), yet the reported hihat is `3/1250`, not 0: no minimum-activation
threshold is applied to hihat. -/
theorem hihat_no_threshold_counterexample :
    (MLAudioProcessor.performBasicAnalysis
        ⟨true, true, false, zeroFeatures, some 44100⟩
        (List.replicate 8 (-99)) (fun _ _ => 0)).1.hihat = 3/1250
    ∧ (3/1250 : ℚ) ≤ MLAudioProcessor.kickThreshold
    ∧ (3/1250 : ℚ) ≤ MLAudioProcessor.snareThreshold
    ∧ (MLAudioProcessor.performBasicAnalysis
        ⟨true, true, false, zeroFeatures, some 44100⟩
        (List.replicate 8 (-99)) (fun _ _ => 0)).1.hihat ≠ 0 := by
  have hraw : MLAudioProcessor.rawBand
      ⟨true, true, false, zeroFeatures, some 44100⟩
      (List.replicate 8 (-99)) 8000 16000 = 3/250 := by
    simp only [MLAudioProcessor.rawBand, MLAudioProcessor.nyquistOf,
      MLAudioProcessor.getAverageForBand]
    norm_num
    simp [List.range_succ]
    norm_num [List.getD, min_def, max_def, List.foldl]
  have hh : (MLAudioProcessor.performBasicAnalysis
      ⟨true, true, false, zeroFeatures, some 44100⟩
      (List.replicate 8 (-99)) (fun _ _ => 0)).1.hihat = 3/1250 := by
    show MLAudioProcessor.smoothValue (MLAudioProcessor.rawBand
        ⟨true, true, false, zeroFeatures, some 44100⟩
        (List.replicate 8 (-99)) 8000 16000) zeroFeatures.hihat = 3/1250
    rw [hraw]
    norm_num [MLAudioProcessor.smoothValue, MLAudioProcessor.smoothingFactor,
      zeroFeatures]
  refine ⟨hh, ?_, ?_, ?_⟩
  · norm_num [MLAudioProcessor.kickThreshold]
  · norm_num [MLAudioProcessor.snareThreshold]
  · rw [hh]
    norm_num
